import Mathlib

/-!
Verification of the iris-rs wallet engine repository.

Part A embeds `crates/iris-wasm/scripts/filter-guards.js` over lines
represented as `List Char` (JS strings are sequences of code units, and the
script manipulates them character by character).

Part B embeds the generic type-guard functions that the script appends
(`isZBase`, `isZSetEntry`, `isZSet`, `isZMapEntry`, `isZMap`) as functions
over a model of JavaScript values.

Part C embeds `crates/iris-wasm/scripts/update-package-json.js`.

Part D models the transaction engine (builder state machine, spend
conditions, signing) from the specification, since the engine's source is
not part of the visible source tree.
-/

namespace FilterGuards

/-- JS `String.prototype.trim` whitespace test, restricted to the ASCII
whitespace that occurs in the processed files. -/
def isWhitespaceChar (c : Char) : Bool :=
  c == ' ' || c == '\t' || c == '\n' || c == '\r'

/-- Drop leading whitespace characters. -/
def trimLeft : List Char → List Char
  | [] => []
  | c :: cs => if isWhitespaceChar c then trimLeft cs else c :: cs

/-- JS `line.trim()`: drop leading and trailing whitespace. -/
def trim (l : List Char) : List Char :=
  (trimLeft (trimLeft l).reverse).reverse

/-- `startsWith l p` is true when `p` is an initial segment of `l`;
embeds JS `String.prototype.startsWith`. -/
def startsWith : List Char → List Char → Bool
  | _, [] => true
  | [], _ :: _ => false
  | c :: cs, p :: ps => c == p && startsWith cs ps

/-- JS `String.prototype.replace` with a string pattern: replace the FIRST
occurrence of `pat` by `rep` (later occurrences are left untouched). -/
def replaceFirst (pat rep : List Char) : List Char → List Char
  | [] => if startsWith [] pat then rep else []
  | c :: cs =>
    if startsWith (c :: cs) pat then rep ++ (c :: cs).drop pat.length
    else c :: replaceFirst pat rep cs

/-- `containsSeq pat l` is true when `pat` occurs as a contiguous
subsequence of `l` (JS `String.prototype.includes`). -/
def containsSeq (pat : List Char) : List Char → Bool
  | [] => startsWith [] pat
  | c :: cs => startsWith (c :: cs) pat || containsSeq pat cs

/-- Net brace count of a line: the loop
`for (const char of line) { if (char === '{') braceCount++; if (char === '}') braceCount--; }`
from filter-guards.js. -/
def braceDelta (l : List Char) : Int :=
  l.foldl (fun acc c =>
    if c == '\x7b' then acc + 1 else if c == '\x7d' then acc - 1 else acc) 0

/-- `guardsToRemove` from filter-guards.js lines 6-16. -/
def guardsToRemove : List (List Char) :=
  [("isReadableStreamType".data), ("isInitInput".data), ("isInitOutput".data),
   ("isSyncInitInput".data), ("isZBase".data), ("isZSet".data),
   ("isZSetEntry".data), ("isZMap".data), ("isZMapEntry".data)]

/-- `excludes` from filter-guards.js line 5. -/
def excludes : List (List Char) :=
  [("InitInput".data), ("InitOutput".data), ("SyncInitInput".data),
   ("ExtendedKey".data)]

/-- The pattern `import \x7b` looked for at line start (after trim). -/
def importPat : List Char := ("import \x7b".data)

/-- The replacement `import type \x7b`. -/
def importRep : List Char := ("import type \x7b".data)

/-- The pattern `from "./iris_wasm"`. -/
def fromPat : List Char := ("from \"./iris_wasm\"".data)

/-- The replacement `from "./iris_wasm.js"`. -/
def fromRep : List Char := ("from \"./iris_wasm.js\"".data)

/-- The per-line rewrite of filter-guards.js lines 30-36: turn a line whose
trimmed form starts with `import \x7b` into an `import type \x7b` line, then
replace the first occurrence of `from "./iris_wasm"` by
`from "./iris_wasm.js"`. -/
def tr (raw : List Char) : List Char :=
  let l := if startsWith (trim raw) importPat
           then replaceFirst importPat importRep raw else raw
  replaceFirst fromPat fromRep l

/-- Does the (already rewritten) line start a guard function that is to be
removed (`export function <name>(` with `<name>` in `guardsToRemove`)?
Embeds lines 39-53. -/
def startsRemove (l : List Char) : Bool :=
  guardsToRemove.any (fun g =>
    startsWith (trim l) (("export function ".data) ++ g ++ ("(".data)))

/-- Does the line start an excluded function (`export function is<name>(`
with `<name>` in `excludes`)? Embeds lines 74-87. -/
def startsExclude (l : List Char) : Bool :=
  excludes.any (fun e =>
    startsWith (trim l) (("export function is".data) ++ e ++ ("(".data)))

/-- The loop state of filter-guards.js: the accumulated output lines and the
variables `skip`, `braceCount`, `insideGuard` (`currentGuardName` is never
read, so it is omitted). -/
structure FilterState where
  newLines : List (List Char)
  skip : Bool
  braceCount : Int
  insideGuard : Bool
deriving DecidableEq

/-- One iteration of the main loop of filter-guards.js (lines 27-105),
processing a single input line: the line is rewritten first; a line opening
a `guardsToRemove` function (re)enters guard-skipping mode; while inside a
guard the running brace count decides when the block ends; the same with
the `excludes` functions and the `skip` flag; every other line is kept. -/
def stepLine (st : FilterState) (raw : List Char) : FilterState :=
  if startsRemove (tr raw) then
    { st with insideGuard := true, braceCount := braceDelta (tr raw) }
  else if st.insideGuard then
    if st.braceCount + braceDelta (tr raw) == 0 then
      { st with insideGuard := false, braceCount := st.braceCount + braceDelta (tr raw) }
    else { st with braceCount := st.braceCount + braceDelta (tr raw) }
  else if startsExclude (tr raw) then
    { st with skip := true, braceCount := braceDelta (tr raw) }
  else if st.skip then
    if st.braceCount + braceDelta (tr raw) == 0 then
      { st with skip := false, braceCount := st.braceCount + braceDelta (tr raw) }
    else { st with braceCount := st.braceCount + braceDelta (tr raw) }
  else
    { st with newLines := st.newLines ++ [tr raw] }

/-- Run the main loop over a list of lines. -/
def runLines (st : FilterState) (ls : List (List Char)) : FilterState :=
  ls.foldl stepLine st

/-- The state at the top of the loop: no output yet, both flags false. -/
def initState : FilterState := ⟨[], false, 0, false⟩

/-- The `genericGuards` template literal of filter-guards.js lines 108-129,
verbatim (braces written with escapes). -/
def genericGuards : List Char :=
  ("\nexport function isZBase<E>(obj: unknown, isE: (e: unknown) => e is E): obj is ZBase<E> \x7b\n    return Array.isArray(obj) && obj.every(isE);\n\x7d\n\nexport function isZSetEntry<T>(obj: unknown, isT: (t: unknown) => t is T): obj is ZSetEntry<T> \x7b\n    return isT(obj);\n\x7d\n\nexport function isZSet<T>(obj: unknown, isT: (t: unknown) => t is T): obj is ZSet<T> \x7b\n    return isZBase(obj, (e): e is ZSetEntry<T> => isZSetEntry(e, isT));\n\x7d\n\nexport function isZMapEntry<K, V>(obj: unknown, isK: (k: unknown) => k is K, isV: (v: unknown) => v is V): obj is ZMapEntry<K, V> \x7b\n    return Array.isArray(obj) && obj.length === 2 && isK(obj[0]) && isV(obj[1]);\n\x7d\n\nexport function isZMap<K, V>(obj: unknown, isK: (k: unknown) => k is K, isV: (v: unknown) => v is V): obj is ZMap<K, V> \x7b\n    if (!Array.isArray(obj)) return false;\n    return obj.every((entry) => isZMapEntry(entry, isK, isV));\n\x7d\n".data)

/-- The whole script on a list of input lines: run the loop, then push the
`genericGuards` block as one final element (lines 131, 134). -/
def filterGuards (input : List (List Char)) : List (List Char) :=
  (runLines initState input).newLines ++ [genericGuards]

/-- Split file content at newline characters (JS `content.split('\n')`). -/
def splitLines : List Char → List (List Char)
  | [] => [[]]
  | c :: cs =>
    if c == '\n' then [] :: splitLines cs
    else
      match splitLines cs with
      | [] => [[c]]
      | l :: ls => (c :: l) :: ls

/-- Join output elements with newlines (JS array join with a newline). -/
def joinLines (ls : List (List Char)) : List Char :=
  List.intercalate (['\n']) ls

/-- filter-guards.js end to end on file contents. -/
def filterGuardsFile (content : List Char) : List Char :=
  joinLines (filterGuards (splitLines content))

/-- Brace-closing discipline of a removed block's body: starting from the
count `bc` left by the declaration line, the running count stays nonzero on
every body line except the last, and reaches zero exactly on the last. An
empty body never closes. -/
def closesFrom : Int → List Int → Bool
  | _, [] => false
  | bc, [d] => bc + d == 0
  | bc, d :: e :: rest => (!(bc + d == 0)) && closesFrom (bc + d) (e :: rest)

/-- A segment of the input file: either a single ordinary line, or a guard
function block (declaration line plus body) that the script removes via the
`guardsToRemove` path, or one it removes via the `excludes` path. -/
inductive Seg where
  | plain (l : List Char)
  | removeBlock (decl : List Char) (body : List (List Char))
  | excludeBlock (decl : List Char) (body : List (List Char))
deriving DecidableEq

/-- The input lines contributed by a segment. -/
def Seg.lines : Seg → List (List Char)
  | .plain l => [l]
  | .removeBlock d b => d :: b
  | .excludeBlock d b => d :: b

/-- Well-formedness of a segment, on the rewritten lines (the script applies
the import rewrites before any matching): a plain line starts no removable
function; a block's declaration line matches its removal path, its body
lines start no removable function themselves, and its braces close exactly
at its last body line (so the body spans at least one line beyond the
declaration). -/
def Seg.wf : Seg → Bool
  | .plain l => !(startsRemove (tr l)) && !(startsExclude (tr l))
  | .removeBlock d b =>
    startsRemove (tr d) &&
    b.all (fun l => !(startsRemove (tr l))) &&
    closesFrom (braceDelta (tr d)) (b.map (fun l => braceDelta (tr l)))
  | .excludeBlock d b =>
    !(startsRemove (tr d)) && startsExclude (tr d) &&
    b.all (fun l => !(startsRemove (tr l)) && !(startsExclude (tr l))) &&
    closesFrom (braceDelta (tr d)) (b.map (fun l => braceDelta (tr l)))

/-- The output line a segment contributes: a plain line survives (rewritten),
a block is removed. -/
def segOut : Seg → Option (List Char)
  | .plain l => some (tr l)
  | .removeBlock _ _ => none
  | .excludeBlock _ _ => none

end FilterGuards

namespace WasmGuards

/-- A model of the JavaScript values the appended generic guards inspect:
arrays of values, the `undefined` value (produced by out-of-range
indexing), and all remaining non-array values, distinguished by a tag. -/
inductive JsVal where
  | arr (elems : List JsVal)
  | undefined
  | other (tag : Nat)

/-- JS `Array.isArray`. -/
def isArrayJs : JsVal → Bool
  | .arr _ => true
  | _ => false

/-- JS `obj.length` for arrays (only consulted after an `Array.isArray`
check in the guards; 0 elsewhere). -/
def jsLength : JsVal → Nat
  | .arr es => es.length
  | _ => 0

/-- JS indexing `obj[i]` on an array: the element, or `undefined` when the
index is out of range. -/
def jsIndex : JsVal → Nat → JsVal
  | .arr es, i => es.getD i .undefined
  | _, _ => .undefined

/-- `isZBase` appended by filter-guards.js:
`return Array.isArray(obj) && obj.every(isE);`. -/
def isZBase (obj : JsVal) (isE : JsVal → Bool) : Bool :=
  match obj with
  | .arr es => es.all isE
  | _ => false

/-- `isZSetEntry` appended by filter-guards.js: `return isT(obj);`. -/
def isZSetEntry (obj : JsVal) (isT : JsVal → Bool) : Bool :=
  isT obj

/-- `isZSet` appended by filter-guards.js:
`return isZBase(obj, (e) => isZSetEntry(e, isT));`. -/
def isZSet (obj : JsVal) (isT : JsVal → Bool) : Bool :=
  isZBase obj (fun e => isZSetEntry e isT)

/-- `isZMapEntry` appended by filter-guards.js:
`return Array.isArray(obj) && obj.length === 2 && isK(obj[0]) && isV(obj[1]);`. -/
def isZMapEntry (obj : JsVal) (isK isV : JsVal → Bool) : Bool :=
  isArrayJs obj && jsLength obj == 2 && isK (jsIndex obj 0) && isV (jsIndex obj 1)

/-- `isZMap` appended by filter-guards.js:
`if (!Array.isArray(obj)) return false; return obj.every((entry) => isZMapEntry(entry, isK, isV));`. -/
def isZMap (obj : JsVal) (isK isV : JsVal → Bool) : Bool :=
  if !(isArrayJs obj) then false
  else
    match obj with
    | .arr es => es.all (fun entry => isZMapEntry entry isK isV)
    | _ => false

end WasmGuards

namespace UpdatePkg

/-- The parsed `pkg/package.json` as far as update-package-json.js inspects
it: the optional `files` array (all other fields are carried through
untouched, so they are not modelled). -/
structure PackageJson where
  files : Option (List String)
deriving DecidableEq

/-- `fileToAdd` from update-package-json.js line 13. -/
def fileToAdd : String := "iris_wasm.guard.ts"

/-- One run of update-package-json.js on the current on-disk package.json:
returns the resulting on-disk value and whether a write happened. If
`pkg.files` is absent it is initialised to `[]`; if it does not include
`fileToAdd`, the entry is pushed and the file is rewritten; otherwise
nothing is written and the file is left as it was. -/
def updatePackageJson (p : PackageJson) : PackageJson × Bool :=
  let files := p.files.getD []
  if files.contains fileToAdd then (p, false)
  else (⟨some (files ++ [fileToAdd])⟩, true)

end UpdatePkg

namespace IrisTx

/-- Modelled from the spec: the transaction engine's source (key derivation,
note/digest/lock model, builder state machine, signing) is not part of the
visible source tree (only its README and build scripts are), so §3-§4 of the
specification are modelled here. A `Digest` is a fixed-length cryptographic
hash value with byte-exact equality, used as note name, address, public-key
hash and transaction id. -/
structure Digest where
  bytes : List Nat
deriving DecidableEq

/-- Modelled from the spec: a timelock/maturity constraint (`LockTim`),
with a coinbase-maturity variant and absolute/relative variants carrying an
explicit height or duration (§4.2). -/
inductive LockTim where
  | coinbaseMaturity
  | absolute (height : Nat)
  | relative (duration : Nat)
deriving DecidableEq

/-- Modelled from the spec: a lock primitive is a tagged variant over `Pkh`
(a signature verifiable against a public-key hash, optionally as a
threshold over a set of hashes; a single-key lock is the 1-of-[k] case) and
`Tim` (a timelock) (§3). -/
inductive LockPrimitive where
  | pkh (threshold : Nat) (keys : List Digest)
  | tim (t : LockTim)
deriving DecidableEq

/-- Modelled from the spec: a spend condition is an ordered sequence of
lock primitives, all of which must be satisfied (§3). -/
structure SpendCondition where
  primitives : List LockPrimitive
deriving DecidableEq

/-- Modelled from the spec: a note is an immutable unspent value unit with
a value amount, a unique name digest, provenance metadata for timelock
evaluation, and its owning lock (§3). -/
structure Note where
  value : Nat
  firstName : Digest
  coinbase : Bool
  createdHeight : Nat
  lock : SpendCondition
deriving DecidableEq

/-- Modelled from the spec: `TxEngineSettings` carries fee computation
parameters and a protocol-version tag; settings values are immutable
(§3, §4.3). The concrete numbers are not given by the spec. -/
structure TxEngineSettings where
  version : Nat
  baseFee : Nat
  feePerInput : Nat
deriving DecidableEq

/-- Modelled from the spec: `feeFor`, the fee computed from the shape of
the transaction, used only when no explicit fee override is supplied
(§4.3). -/
def feeFor (s : TxEngineSettings) (inputs : List Note) : Nat :=
  s.baseFee + s.feePerInput * inputs.length

/-- Modelled from the spec: the general default settings preset, exposed to
callers as an accessor (`txEngineSettingsV1Default()` in the README); the
preset's concrete numbers are not given by the spec. -/
def txEngineSettingsV1Default (_ : Unit) : TxEngineSettings :=
  ⟨1, 1000, 100⟩

/-- Modelled from the spec: the network-specific default settings preset
(`txEngineSettingsV1BythosDefault()` in the README, for the Bythos
deployment target); the preset's concrete numbers are not given by the
spec. -/
def txEngineSettingsV1BythosDefault (_ : Unit) : TxEngineSettings :=
  ⟨1, 2000, 100⟩

/-- Modelled from the spec: a private key; key material is opaque bytes
(§4.1). -/
structure PrivateKey where
  keyBytes : List Nat
deriving DecidableEq

/-- Modelled from the spec: the public-key hash derived from a key by a
one-way hash of its public key, usable directly as a `Pkh` lock target
(§4.1); the hash is modelled as an injective tagging of the key bytes. -/
def pubkeyHash (k : PrivateKey) : Digest :=
  ⟨0 :: k.keyBytes⟩

/-- Modelled from the spec: a signature produced over the canonical signing
payload, carrying the signer's public-key hash (§4.5, §4.4). -/
structure Signature where
  signerPkh : Digest
  payload : List Nat
deriving DecidableEq

/-- Modelled from the spec: a transaction output: a recipient digest, an
amount, and whether it is the synthesized change output (§3, §4.4). -/
structure Output where
  recipient : Digest
  amount : Nat
  isChange : Bool
deriving DecidableEq

/-- Modelled from the spec: the unsigned transaction fixed by `simpleSpend`:
ordered inputs, the output spend conditions, ordered outputs and the fee
(§3, §4.4). -/
structure UnsignedTx where
  inputs : List Note
  outputConditions : List SpendCondition
  outputs : List Output
  fee : Nat
deriving DecidableEq

/-- Modelled from the spec: the error taxonomy of §7, plus the unnamed
rejection of an empty input list (§4.4 requires `inputs` non-empty but
names no error for it). -/
inductive TxError where
  | invalidMnemonic
  | invalidKeyEncoding
  | emptyCondition
  | duplicatePrimitiveKind
  | insufficientFunds
  | unspentResidual
  | wrongBuilderState
  | incompleteSignatures
  | prematureSpend
  | settingsVersionMismatch
  | emptyInputs
deriving DecidableEq

/-- Modelled from the spec: canonical encoding of a digest (length-prefixed
bytes); the wire codec is a black box with a stable schema (§6), modelled
as a concrete injective byte encoding. -/
def encodeDigest (d : Digest) : List Nat :=
  d.bytes.length :: d.bytes

/-- Modelled from the spec: stable variant tags for `LockTim` (§6). -/
def encodeLockTim : LockTim → List Nat
  | .coinbaseMaturity => [0]
  | .absolute h => [1, h]
  | .relative d => [2, d]

/-- Modelled from the spec: stable variant tags for `LockPrimitive` (§6). -/
def encodeLockPrimitive : LockPrimitive → List Nat
  | .pkh m keys => [0, m, keys.length] ++ (keys.map encodeDigest).flatten
  | .tim t => 1 :: encodeLockTim t

/-- Modelled from the spec: canonical encoding of a spend condition in
primitive order (§3: order matters for deterministic serialization). -/
def encodeSpendCondition (c : SpendCondition) : List Nat :=
  c.primitives.length :: (c.primitives.map encodeLockPrimitive).flatten

/-- Modelled from the spec: canonical encoding of an input reference. -/
def encodeNoteRef (n : Note) : List Nat :=
  encodeDigest n.firstName ++ [n.value]

/-- Modelled from the spec: canonical encoding of an output. -/
def encodeOutput (o : Output) : List Nat :=
  encodeDigest o.recipient ++ [o.amount, if o.isChange then 1 else 0]

/-- Modelled from the spec: the canonical byte encoding of the unsigned
transaction, with a stable field order (§6); this is also the deterministic
signing payload (§4.4). -/
def encodeUnsignedTx (utx : UnsignedTx) : List Nat :=
  [utx.inputs.length] ++ (utx.inputs.map encodeNoteRef).flatten ++
  [utx.outputConditions.length] ++
  (utx.outputConditions.map encodeSpendCondition).flatten ++
  [utx.outputs.length] ++ (utx.outputs.map encodeOutput).flatten ++
  [utx.fee]

/-- Modelled from the spec: the transaction id is the digest of the
canonical encoding (§4.4); the hash is modelled as the encoding itself. -/
def txIdOf (utx : UnsignedTx) : Digest :=
  ⟨encodeUnsignedTx utx⟩

/-- Modelled from the spec: the builder lifecycle states
Draft → Composed → Signed → Built (§4.4), each carrying the data fixed so
far. -/
inductive BuilderState where
  | draft
  | composed (utx : UnsignedTx)
  | signed (utx : UnsignedTx) (sigs : List Signature)
  | built (utx : UnsignedTx) (sigs : List Signature) (txid : Digest)
deriving DecidableEq

/-- The lifecycle stage, without the carried data. -/
inductive StateTag where
  | draft
  | composed
  | signed
  | built
deriving DecidableEq

/-- The stage of a builder state. -/
def BuilderState.tag : BuilderState → StateTag
  | .draft => .draft
  | .composed _ => .composed
  | .signed _ _ => .signed
  | .built _ _ _ => .built

/-- Position of a stage along the one-directional chain. -/
def StateTag.idx : StateTag → Nat
  | .draft => 0
  | .composed => 1
  | .signed => 2
  | .built => 3

/-- Modelled from the spec: the mutable work-in-progress builder aggregate,
owned by a single caller (§3). -/
structure TxBuilder where
  settings : TxEngineSettings
  state : BuilderState
deriving DecidableEq

/-- Total value of a list of input notes. -/
def sumValues (notes : List Note) : Nat :=
  (notes.map Note.value).sum

/-- Total amount of the synthesized change outputs of a transaction. -/
def changeAmount (utx : UnsignedTx) : Nat :=
  ((utx.outputs.filter Output.isChange).map Output.amount).sum

/-- Modelled from the spec: `simpleSpend` (§4.4), transitions
Draft → Composed. Rejects an empty input list; computes the fee from the
override or from the settings; fails with `InsufficientFunds` when
`sum(inputs.value) < gift + fee`; when `includeChange` is true a change
output to the refund digest is synthesized for any positive residual,
otherwise the residual must be exactly zero or the call fails with
`UnspentResidual`. Outputs are ordered recipient first, change last. In
every other state it fails with `WrongBuilderState`. -/
def simpleSpend (b : TxBuilder) (inputs : List Note)
    (outputConditions : List SpendCondition) (recipient : Digest)
    (gift : Nat) (feeOverride : Option Nat) (refund : Digest)
    (includeChange : Bool) : Except TxError TxBuilder :=
  match b.state with
  | .draft =>
    if inputs.isEmpty then .error .emptyInputs
    else
      let fee := feeOverride.getD (feeFor b.settings inputs)
      let total := sumValues inputs
      if total < gift + fee then .error .insufficientFunds
      else
        let residual := total - gift - fee
        if includeChange then
          let outs := ⟨recipient, gift, false⟩ ::
            (if residual == 0 then [] else [⟨refund, residual, true⟩])
          .ok ⟨b.settings, .composed ⟨inputs, outputConditions, outs, fee⟩⟩
        else
          if residual == 0 then
            .ok ⟨b.settings,
                 .composed ⟨inputs, outputConditions, [⟨recipient, gift, false⟩], fee⟩⟩
          else .error .unspentResidual
  | _ => .error .wrongBuilderState

/-- Modelled from the spec: the signature a key contributes over the
canonical signing payload of the unsigned transaction (§4.4, §4.5). -/
def signPayload (k : PrivateKey) (utx : UnsignedTx) : Signature :=
  ⟨pubkeyHash k, encodeUnsignedTx utx⟩

/-- Modelled from the spec: `sign` (§4.4), transitions
Composed|Signed → Signed, appending the new signature in call order; any
key is accepted (a signature whose hash matches no primitive is accumulated
but inert). Fails with `WrongBuilderState` before Composed or after
Built. -/
def sign (b : TxBuilder) (k : PrivateKey) : Except TxError TxBuilder :=
  match b.state with
  | .composed utx => .ok ⟨b.settings, .signed utx [signPayload k utx]⟩
  | .signed utx sigs => .ok ⟨b.settings, .signed utx (sigs ++ [signPayload k utx])⟩
  | _ => .error .wrongBuilderState

/-- Modelled from the spec: whether the accumulated signature set satisfies
one lock primitive; a `Pkh` threshold needs at least `m` of its hashes to
have signed, timelocks are not checked by `build` (§4.4). -/
def pkhPrimSatisfied (sigs : List Signature) : LockPrimitive → Bool
  | .pkh m keys =>
    decide (m ≤ (keys.filter (fun key => sigs.any (fun s => s.signerPkh == key))).length)
  | .tim _ => true

/-- Modelled from the spec: whether the signature set can satisfy all `Pkh`
primitives of one spend condition (§4.4). -/
def condPkhSatisfied (sigs : List Signature) (c : SpendCondition) : Bool :=
  c.primitives.all (pkhPrimSatisfied sigs)

/-- Modelled from the spec: `build` (§4.4), transitions Signed → Built.
Fails with `IncompleteSignatures` if for at least one input's spend
condition the signature set cannot satisfy all `Pkh` primitives; on success
the id is the digest of the canonical encoding. Fails with
`WrongBuilderState` in any other state. -/
def build (b : TxBuilder) : Except TxError TxBuilder :=
  match b.state with
  | .signed utx sigs =>
    if utx.inputs.all (fun n => condPkhSatisfied sigs n.lock) then
      .ok ⟨b.settings, .built utx sigs (txIdOf utx)⟩
    else .error .incompleteSignatures
  | _ => .error .wrongBuilderState

/-- A sample digest used by concrete witnesses. -/
def dA : Digest := ⟨[10]⟩

/-- A second sample digest used by concrete witnesses. -/
def dB : Digest := ⟨[11]⟩

/-- A sample single-key spend condition used by concrete witnesses. -/
def condK (k : PrivateKey) : SpendCondition :=
  ⟨[.pkh 1 [pubkeyHash k]]⟩

/-- A sample note of the given value locked to the given key, used by
concrete witnesses. -/
def noteOf (v : Nat) (k : PrivateKey) : Note :=
  ⟨v, ⟨[1, v]⟩, false, 0, condK k⟩

/-- A fresh builder over the default settings, used by concrete
witnesses. -/
def freshBuilder : TxBuilder :=
  ⟨txEngineSettingsV1Default (), .draft⟩

/-- A second sample key used by concrete witnesses. -/
def wKey : PrivateKey := ⟨[5]⟩

/-- A sample key unrelated to any lock, used by concrete witnesses. -/
def wKey2 : PrivateKey := ⟨[6]⟩

/-- The unsigned transaction of the spec's worked scenario:
one 1,000,000 input, 600,000 gift, 50,000 fee override, 350,000 change. -/
def wComposedUtx : UnsignedTx :=
  ⟨[noteOf 1000000 wKey], [], [⟨dA, 600000, false⟩, ⟨dB, 350000, true⟩], 50000⟩

/-- A builder in the Composed state, used by concrete witnesses. -/
def wComposedBuilder : TxBuilder :=
  ⟨txEngineSettingsV1Default (), .composed wComposedUtx⟩

/-- A builder in the Built state, used by concrete witnesses. -/
def wBuiltBuilder : TxBuilder :=
  ⟨txEngineSettingsV1Default (), .built wComposedUtx [] (txIdOf wComposedUtx)⟩

/-- A builder in the Signed state whose single input's `Pkh` lock was
signed by the matching key, used by concrete witnesses. -/
def wSignedOk : TxBuilder :=
  ⟨txEngineSettingsV1Default (), .signed wComposedUtx [signPayload wKey wComposedUtx]⟩

/-- A builder in the Signed state signed only by an unrelated key, used by
concrete witnesses. -/
def wSignedBad : TxBuilder :=
  ⟨txEngineSettingsV1Default (), .signed wComposedUtx [signPayload wKey2 wComposedUtx]⟩

end IrisTx

namespace FilterGuards

/-- A concrete input line holding two occurrences of `from "./iris_wasm"`,
used to exercise the script's single-occurrence string replacement. -/
def cxLine : List Char :=
  ("const x = 1; from \"./iris_wasm\" from \"./iris_wasm\"".data)

/-- The line the script actually produces for `cxLine`: only the first
occurrence is rewritten. -/
def cxOut : List Char :=
  ("const x = 1; from \"./iris_wasm.js\" from \"./iris_wasm\"".data)

/-- A concrete well-formed segmentation (an import line, a removable guard
block, an excluded guard block, an ordinary line), used by concrete
witnesses. -/
def segsEx : List Seg :=
  [.plain ("import \x7b Foo \x7d from \"./iris_wasm\";".data),
   .removeBlock ("export function isZBase(obj: unknown): obj is ZBase \x7b".data)
     [("    return true;".data), ("\x7d".data)],
   .excludeBlock ("export function isExtendedKey(obj: unknown): obj is ExtendedKey \x7b".data)
     [("    return false;".data), ("\x7d".data)],
   .plain ("export const n = 1;".data)]

end FilterGuards

/-!
Theorems. Each claim Cn of the specification review is settled by the
theorem named after it below; shared helper lemmas come first.
-/

namespace WasmGuards

/-- Helper: an array's elements at indices 0 and 1 when its length is 2. -/
theorem getD_two (a b : JsVal) :
    ([a, b].getD 0 JsVal.undefined = a) ∧ ([a, b].getD 1 JsVal.undefined = b) :=
  ⟨rfl, rfl⟩

end WasmGuards

/-- C9: the generic guards appended by filter-guards.js are exact
membership tests: `isZMapEntry obj isK isV` holds iff `obj` is an array of
length exactly 2 whose two elements pass `isK` and `isV`; `isZMap` holds
iff `obj` is an array all of whose elements pass `isZMapEntry`; both are
false (and in particular total, never failing) on every non-array value;
and the empty array passes `isZMap`. -/
theorem c9_generic_guards (obj : WasmGuards.JsVal)
    (isK isV : WasmGuards.JsVal → Bool) :
    (WasmGuards.isZMapEntry obj isK isV = true ↔
      ∃ a b, obj = .arr [a, b] ∧ isK a = true ∧ isV b = true) ∧
    (WasmGuards.isZMap obj isK isV = true ↔
      ∃ es, obj = .arr es ∧ ∀ e ∈ es, WasmGuards.isZMapEntry e isK isV = true) ∧
    (WasmGuards.isArrayJs obj = false →
      WasmGuards.isZMapEntry obj isK isV = false ∧
      WasmGuards.isZMap obj isK isV = false) ∧
    WasmGuards.isZMap (.arr []) isK isV = true := by
  refine ⟨?_, ?_, ?_, by simp [WasmGuards.isZMap, WasmGuards.isArrayJs]⟩
  · cases obj with
    | arr es =>
      constructor
      · intro h
        simp only [WasmGuards.isZMapEntry, WasmGuards.isArrayJs,
          WasmGuards.jsLength, WasmGuards.jsIndex, Bool.true_and,
          Bool.and_eq_true, beq_iff_eq] at h
        obtain ⟨⟨hlen, hK⟩, hV⟩ := h
        obtain ⟨a, b, rfl⟩ := List.length_eq_two.mp hlen
        exact ⟨a, b, rfl, by simpa using hK, by simpa using hV⟩
      · rintro ⟨a, b, he, hK, hV⟩
        cases he
        simp [WasmGuards.isZMapEntry, WasmGuards.isArrayJs,
          WasmGuards.jsLength, WasmGuards.jsIndex, hK, hV]
    | undefined =>
      simp [WasmGuards.isZMapEntry, WasmGuards.isArrayJs]
    | other t =>
      simp [WasmGuards.isZMapEntry, WasmGuards.isArrayJs]
  · cases obj with
    | arr es =>
      simp only [WasmGuards.isZMap, WasmGuards.isArrayJs, Bool.not_true,
        Bool.false_eq_true, if_false, List.all_eq_true]
      constructor
      · intro h
        exact ⟨es, rfl, h⟩
      · rintro ⟨es2, he, h⟩
        cases he
        exact h
    | undefined =>
      simp [WasmGuards.isZMap, WasmGuards.isArrayJs]
    | other t =>
      simp [WasmGuards.isZMap, WasmGuards.isArrayJs]
  · intro h
    cases obj with
    | arr es => simp [WasmGuards.isArrayJs] at h
    | undefined => exact ⟨rfl, rfl⟩
    | other t => exact ⟨rfl, rfl⟩

/-- Witness for C9 at concrete inputs: a two-element array passes
`isZMapEntry`, and the non-array `undefined` fails both guards. -/
theorem c9_witness :
    WasmGuards.isZMapEntry (.arr [.undefined, .undefined])
      (fun _ => true) (fun _ => true) = true ∧
    WasmGuards.isZMap .undefined (fun _ => true) (fun _ => true) = false :=
  ⟨(c9_generic_guards (.arr [.undefined, .undefined]) (fun _ => true)
      (fun _ => true)).1.mpr ⟨.undefined, .undefined, rfl, rfl, rfl⟩,
   ((c9_generic_guards .undefined (fun _ => true) (fun _ => true)).2.2.1 rfl).2⟩

/-- C10 counterexample: a package.json whose `files` array already lists
`iris_wasm.guard.ts` twice is left as-is by one (successful) run, so the
entry does not occur exactly once afterwards, refuting the claim as
stated. -/
theorem c10_counterexample :
    ((UpdatePkg.updatePackageJson
        ⟨some [UpdatePkg.fileToAdd, UpdatePkg.fileToAdd]⟩).1.files.getD []).count
      UpdatePkg.fileToAdd = 2 ∧
    (UpdatePkg.updatePackageJson
        ⟨some [UpdatePkg.fileToAdd, UpdatePkg.fileToAdd]⟩).2 = false := by
  constructor <;> decide

/-- C10 (amended): update-package-json.js writes, appending the entry, iff
the entry is not already present; after one successful run the entry occurs
at least once — exactly once whenever it occurred at most once beforehand —
and a second run performs no write and leaves the stored package.json
unchanged. -/
theorem c10_idempotent (p : UpdatePkg.PackageJson) :
    ((UpdatePkg.updatePackageJson p).2 =
      !((p.files.getD []).contains UpdatePkg.fileToAdd)) ∧
    1 ≤ ((UpdatePkg.updatePackageJson p).1.files.getD []).count UpdatePkg.fileToAdd ∧
    ((p.files.getD []).count UpdatePkg.fileToAdd ≤ 1 →
      ((UpdatePkg.updatePackageJson p).1.files.getD []).count UpdatePkg.fileToAdd = 1) ∧
    UpdatePkg.updatePackageJson (UpdatePkg.updatePackageJson p).1 =
      ((UpdatePkg.updatePackageJson p).1, false) := by
  cases hc : (p.files.getD []).contains UpdatePkg.fileToAdd with
  | true =>
    have hmem : UpdatePkg.fileToAdd ∈ p.files.getD [] := by simpa using hc
    have hpos : 0 < (p.files.getD []).count UpdatePkg.fileToAdd :=
      List.count_pos_iff.mpr hmem
    have hrun : UpdatePkg.updatePackageJson p = (p, false) := by
      simp [UpdatePkg.updatePackageJson, hc, hmem]
    refine ⟨by simp [hrun, hc], by simpa [hrun] using hpos, ?_, ?_⟩
    · intro hle
      have := Nat.le_antisymm hle hpos
      simpa [hrun] using this
    · rw [hrun]
      simp [UpdatePkg.updatePackageJson, hc, hmem]
  | false =>
    have hnmem : UpdatePkg.fileToAdd ∉ p.files.getD [] := by simpa using hc
    have hzero : (p.files.getD []).count UpdatePkg.fileToAdd = 0 :=
      List.count_eq_zero.mpr hnmem
    have hrun : UpdatePkg.updatePackageJson p =
        (⟨some ((p.files.getD []) ++ [UpdatePkg.fileToAdd])⟩, true) := by
      simp [UpdatePkg.updatePackageJson, hc, hnmem]
    have hcount : ((p.files.getD []) ++ [UpdatePkg.fileToAdd]).count
        UpdatePkg.fileToAdd = 1 := by
      rw [List.count_append, hzero]
      simp
    have hmem2 : UpdatePkg.fileToAdd ∈ (p.files.getD []) ++ [UpdatePkg.fileToAdd] := by
      simp
    refine ⟨by simp [hrun, hc], by simp [hrun, hcount], by intro _; simp [hrun, hcount], ?_⟩
    rw [hrun]
    simp [UpdatePkg.updatePackageJson, hmem2]

/-- Witness for C10 at a concrete input: starting from a package.json with
no `files` field, the first run writes the entry once and the second run
does not write. -/
theorem c10_witness :
    1 ≤ ((UpdatePkg.updatePackageJson ⟨none⟩).1.files.getD []).count
      UpdatePkg.fileToAdd ∧
    ((UpdatePkg.updatePackageJson ⟨none⟩).1.files.getD []).count
      UpdatePkg.fileToAdd = 1 ∧
    UpdatePkg.updatePackageJson (UpdatePkg.updatePackageJson ⟨none⟩).1 =
      ((UpdatePkg.updatePackageJson ⟨none⟩).1, false) :=
  ⟨(c10_idempotent ⟨none⟩).2.1,
   (c10_idempotent ⟨none⟩).2.2.1 (by decide),
   (c10_idempotent ⟨none⟩).2.2.2⟩

namespace FilterGuards

/-- Helper: a kept line is appended to the output and the flags stay
clear. -/
theorem stepLine_plain (st : FilterState) (l : List Char)
    (h1 : startsRemove (tr l) = false) (h2 : startsExclude (tr l) = false)
    (hg : st.insideGuard = false) (hs : st.skip = false) :
    stepLine st l = { st with newLines := st.newLines ++ [tr l] } := by
  simp [stepLine, h1, h2, hg, hs]

/-- Helper: while inside a removed guard block whose braces close exactly
at the last body line, the whole body is consumed without output, leaving
guard mode with a zero brace count. -/
theorem consumeGuard (body : List (List Char)) :
    ∀ st : FilterState, st.insideGuard = true →
    (∀ l ∈ body, startsRemove (tr l) = false) →
    closesFrom st.braceCount (body.map (fun l => braceDelta (tr l))) = true →
    runLines st body = { st with insideGuard := false, braceCount := 0 } := by
  induction body with
  | nil =>
    intro st _ _ h3
    simp [closesFrom] at h3
  | cons a rest ih =>
    intro st hg hnr hcl
    have ha : startsRemove (tr a) = false := hnr a (List.mem_cons_self a rest)
    cases rest with
    | nil =>
      simp only [List.map_cons, List.map_nil, closesFrom] at hcl
      have hbc : st.braceCount + braceDelta (tr a) = 0 := eq_of_beq hcl
      simp [runLines, stepLine, ha, hg, hbc]
    | cons b rs =>
      simp only [List.map_cons, closesFrom, Bool.and_eq_true,
        Bool.not_eq_true'] at hcl
      obtain ⟨hne, hcl2⟩ := hcl
      have hstep : stepLine st a =
          { st with braceCount := st.braceCount + braceDelta (tr a) } := by
        simp [stepLine, ha, hg, hne]
      have : runLines st (a :: b :: rs) =
          runLines (stepLine st a) (b :: rs) := rfl
      rw [this, hstep]
      refine ih _ hg (fun l hl => hnr l (List.mem_cons_of_mem a hl)) ?_
      simpa [List.map_cons] using hcl2

/-- Helper: while skipping an excluded function block whose braces close
exactly at the last body line, the whole body is consumed without output,
leaving skip mode with a zero brace count. -/
theorem consumeSkip (body : List (List Char)) :
    ∀ st : FilterState, st.insideGuard = false → st.skip = true →
    (∀ l ∈ body, startsRemove (tr l) = false ∧ startsExclude (tr l) = false) →
    closesFrom st.braceCount (body.map (fun l => braceDelta (tr l))) = true →
    runLines st body = { st with skip := false, braceCount := 0 } := by
  induction body with
  | nil =>
    intro st _ _ _ h4
    simp [closesFrom] at h4
  | cons a rest ih =>
    intro st hg hs hnr hcl
    obtain ⟨ha1, ha2⟩ := hnr a (List.mem_cons_self a rest)
    cases rest with
    | nil =>
      simp only [List.map_cons, List.map_nil, closesFrom] at hcl
      have hbc : st.braceCount + braceDelta (tr a) = 0 := eq_of_beq hcl
      simp [runLines, stepLine, ha1, ha2, hg, hs, hbc]
    | cons b rs =>
      simp only [List.map_cons, closesFrom, Bool.and_eq_true,
        Bool.not_eq_true'] at hcl
      obtain ⟨hne, hcl2⟩ := hcl
      have hstep : stepLine st a =
          { st with braceCount := st.braceCount + braceDelta (tr a) } := by
        simp [stepLine, ha1, ha2, hg, hs, hne]
      have : runLines st (a :: b :: rs) =
          runLines (stepLine st a) (b :: rs) := rfl
      rw [this, hstep]
      refine ih _ hg hs (fun l hl => hnr l (List.mem_cons_of_mem a hl)) ?_
      simpa [List.map_cons] using hcl2

/-- Helper: processing one well-formed segment from a clean state appends
exactly its surviving (rewritten) line, or nothing for a removed block, and
returns to a clean state. -/
theorem runSeg (s : Seg) (st : FilterState) (hg : st.insideGuard = false)
    (hs : st.skip = false) (hw : s.wf = true) :
    ∃ bc, runLines st s.lines =
      ⟨st.newLines ++ (segOut s).toList, false, bc, false⟩ := by
  obtain ⟨nl, sk, bc0, ig⟩ := st
  simp only at hg hs
  subst hg; subst hs
  cases s with
  | plain l =>
    simp only [Seg.wf, Bool.and_eq_true, Bool.not_eq_eq_eq_not,
      Bool.not_true] at hw
    obtain ⟨h1, h2⟩ := hw
    refine ⟨bc0, ?_⟩
    simp [runLines, stepLine, h1, h2, segOut, Seg.lines]
  | removeBlock d body =>
    simp only [Seg.wf, Bool.and_eq_true, Bool.not_eq_eq_eq_not,
      Bool.not_true, List.all_eq_true] at hw
    obtain ⟨⟨h1, h2⟩, h3⟩ := hw
    refine ⟨0, ?_⟩
    have hstep : stepLine ⟨nl, false, bc0, false⟩ d =
        ⟨nl, false, braceDelta (tr d), true⟩ := by
      simp [stepLine, h1]
    have : runLines ⟨nl, false, bc0, false⟩ (d :: body) =
        runLines (stepLine ⟨nl, false, bc0, false⟩ d) body := rfl
    rw [Seg.lines, this, hstep,
      consumeGuard body ⟨nl, false, braceDelta (tr d), true⟩ rfl h2 h3]
    simp [segOut]
  | excludeBlock d body =>
    simp only [Seg.wf, Bool.and_eq_true, Bool.not_eq_eq_eq_not,
      Bool.not_true, List.all_eq_true] at hw
    obtain ⟨⟨⟨h0, h1⟩, h2⟩, h3⟩ := hw
    refine ⟨0, ?_⟩
    have hstep : stepLine ⟨nl, false, bc0, false⟩ d =
        ⟨nl, true, braceDelta (tr d), false⟩ := by
      simp [stepLine, h0, h1]
    have : runLines ⟨nl, false, bc0, false⟩ (d :: body) =
        runLines (stepLine ⟨nl, false, bc0, false⟩ d) body := rfl
    rw [Seg.lines, this, hstep,
      consumeSkip body ⟨nl, true, braceDelta (tr d), false⟩ rfl rfl
        (fun l hl => ⟨(h2 l hl).1, (h2 l hl).2⟩) h3]
    simp [segOut]

/-- Helper: processing a list of well-formed segments from a clean state
outputs exactly the rewritten plain lines, in order. -/
theorem runSegs (segs : List Seg) :
    ∀ st : FilterState, st.insideGuard = false → st.skip = false →
    (∀ s ∈ segs, s.wf = true) →
    ∃ bc, runLines st ((segs.map Seg.lines).flatten) =
      ⟨st.newLines ++ segs.filterMap segOut, false, bc, false⟩ := by
  induction segs with
  | nil =>
    intro st hg hs _
    obtain ⟨nl, sk, bc0, ig⟩ := st
    simp only at hg hs
    subst hg; subst hs
    exact ⟨bc0, by simp [runLines]⟩
  | cons s rest ih =>
    intro st hg hs hw
    obtain ⟨bc1, h1⟩ := runSeg s st hg hs (hw s (List.mem_cons_self s rest))
    have hsplit : runLines st ((s :: rest).map Seg.lines).flatten =
        runLines (runLines st s.lines) ((rest.map Seg.lines).flatten) := by
      simp only [List.map_cons, List.flatten_cons, runLines]
      exact List.foldl_append stepLine st s.lines ((rest.map Seg.lines).flatten)
    obtain ⟨bc2, h2⟩ :=
      ih ⟨st.newLines ++ (segOut s).toList, false, bc1, false⟩ rfl rfl
        (fun x hx => hw x (List.mem_cons_of_mem s hx))
    refine ⟨bc2, ?_⟩
    rw [hsplit, h1, h2]
    cases ho : segOut s with
    | none => simp [List.filterMap_cons_none ho, ho]
    | some v => simp [List.filterMap_cons_some ho, ho]

end FilterGuards

/-- C8 (amended): for every input made of well-formed segments — ordinary
lines, and guard-function blocks (for the `guardsToRemove` names and the
`is`+`excludes` names) whose brace-balanced bodies span beyond the
declaration line — the output of filter-guards.js is exactly: every
ordinary line with a leading `import \x7b` rewritten to
`import type \x7b` and the FIRST occurrence of `from "./iris_wasm"` per
line rewritten to `from "./iris_wasm.js"`, with every line of every guard
block removed, and the five generic guard implementations appended
verbatim at the end. -/
theorem c8_filter_characterization (segs : List FilterGuards.Seg)
    (h : ∀ s ∈ segs, s.wf = true) :
    FilterGuards.filterGuards ((segs.map FilterGuards.Seg.lines).flatten) =
      segs.filterMap FilterGuards.segOut ++ [FilterGuards.genericGuards] := by
  obtain ⟨bc, hrun⟩ := FilterGuards.runSegs segs FilterGuards.initState rfl rfl h
  simp only [FilterGuards.filterGuards]
  rw [hrun]
  simp [FilterGuards.initState]

/-- Witness for C8 at a concrete input: an import line, a removable guard
block, an excluded block and an ordinary line are filtered to the two
rewritten surviving lines plus the appended generic guards. -/
theorem c8_witness :
    FilterGuards.filterGuards
        ((FilterGuards.segsEx.map FilterGuards.Seg.lines).flatten) =
      FilterGuards.segsEx.filterMap FilterGuards.segOut ++
        [FilterGuards.genericGuards] :=
  c8_filter_characterization FilterGuards.segsEx (by decide)

/-- C8 counterexample: on a line holding two occurrences of
`from "./iris_wasm"`, the script rewrites only the first one — the output
line still contains `from "./iris_wasm"` — so the claim that EVERY
occurrence is rewritten fails. -/
theorem c8_counterexample :
    (FilterGuards.filterGuards [FilterGuards.cxLine]).headD [] =
      FilterGuards.cxOut ∧
    FilterGuards.containsSeq FilterGuards.fromPat
      ((FilterGuards.filterGuards [FilterGuards.cxLine]).headD []) = true := by
  constructor <;> decide

namespace IrisTx

/-- Helper: full characterization of a successful `simpleSpend` call: it
requires the Draft state, non-empty inputs, sufficient funds, a zero
residual when change is disabled, and produces exactly the composed
transaction with the recipient output first and the synthesized change
output (if any) last. -/
theorem simpleSpend_ok_iff (b : TxBuilder) (inputs : List Note)
    (conds : List SpendCondition) (recipient : Digest) (gift : Nat)
    (feeO : Option Nat) (refund : Digest) (ic : Bool) (b' : TxBuilder) :
    simpleSpend b inputs conds recipient gift feeO refund ic = .ok b' ↔
    (b.state = .draft ∧ inputs ≠ [] ∧
     gift + feeO.getD (feeFor b.settings inputs) ≤ sumValues inputs ∧
     (ic = false →
       sumValues inputs = gift + feeO.getD (feeFor b.settings inputs)) ∧
     b' = ⟨b.settings, .composed ⟨inputs, conds,
        ⟨recipient, gift, false⟩ ::
          (if ic && !(sumValues inputs - gift -
              feeO.getD (feeFor b.settings inputs) == 0)
           then [⟨refund, sumValues inputs - gift -
              feeO.getD (feeFor b.settings inputs), true⟩]
           else []),
        feeO.getD (feeFor b.settings inputs)⟩⟩) := by
  constructor
  · intro h
    cases hst : b.state with
    | draft =>
      simp only [simpleSpend, hst] at h
      split at h
      · simp at h
      · rename_i he
        split at h
        · simp at h
        · rename_i hlt
          have hle : gift + feeO.getD (feeFor b.settings inputs) ≤
              sumValues inputs := Nat.not_lt.mp hlt
          have hne : inputs ≠ [] := by
            rw [Bool.not_eq_true] at he
            exact List.isEmpty_eq_false.mp he
          split at h
          · rename_i hic
            injection h with h2
            refine ⟨rfl, hne, hle, ?_, ?_⟩
            · intro hf
              rw [hic] at hf
              cases hf
            · cases hres : (sumValues inputs - gift -
                  feeO.getD (feeFor b.settings inputs) == 0) <;>
                simp [hic, hres] at h2 ⊢ <;> exact h2.symm
          · rename_i hic
            have hicf : ic = false := by
              rw [Bool.not_eq_true] at hic
              exact hic
            split at h
            · rename_i hres
              injection h with h2
              have h0 : sumValues inputs - gift -
                  feeO.getD (feeFor b.settings inputs) = 0 := eq_of_beq hres
              refine ⟨rfl, hne, hle, fun _ => by omega, ?_⟩
              simp [hicf] at h2 ⊢
              exact h2.symm
            · simp at h
    | composed utx =>
      simp only [simpleSpend, hst] at h
      cases h
    | signed utx sigs =>
      simp only [simpleSpend, hst] at h
      cases h
    | built utx sigs txid =>
      simp only [simpleSpend, hst] at h
      cases h
  · rintro ⟨hst, hne, hle, hic0, rfl⟩
    have he : inputs.isEmpty = false := List.isEmpty_eq_false.mpr hne
    have hnlt : ¬ (sumValues inputs <
        gift + feeO.getD (feeFor b.settings inputs)) := Nat.not_lt.mpr hle
    simp only [simpleSpend, hst, he, Bool.false_eq_true, if_false]
    rw [if_neg hnlt]
    cases hic : ic with
    | true =>
      cases hres : (sumValues inputs - gift -
          feeO.getD (feeFor b.settings inputs) == 0) <;> simp [hres]
    | false =>
      have h0 : sumValues inputs - gift -
          feeO.getD (feeFor b.settings inputs) = 0 := by
        have := hic0 hic
        omega
      simp [h0]

/-- Helper: `List.any` is invariant under permutation of the list. -/
theorem perm_any {α : Type} (f : α → Bool) {l1 l2 : List α}
    (h : l1.Perm l2) : l1.any f = l2.any f := by
  rw [Bool.eq_iff_iff, List.any_eq_true, List.any_eq_true]
  constructor <;> rintro ⟨x, hx, hf⟩
  · exact ⟨x, h.mem_iff.mp hx, hf⟩
  · exact ⟨x, h.mem_iff.mpr hx, hf⟩

/-- Helper: condition satisfaction depends only on the set of collected
signatures, not on their order. -/
theorem condPkhSatisfied_perm (sigs1 sigs2 : List Signature)
    (h : sigs1.Perm sigs2) (c : SpendCondition) :
    condPkhSatisfied sigs1 c = condPkhSatisfied sigs2 c := by
  unfold condPkhSatisfied
  have hp : pkhPrimSatisfied sigs1 = pkhPrimSatisfied sigs2 := by
    funext p
    cases p with
    | pkh m keys =>
      simp only [pkhPrimSatisfied]
      have hkey : (fun key => sigs1.any (fun s => s.signerPkh == key)) =
          (fun key => sigs2.any (fun s => s.signerPkh == key)) := by
        funext key
        exact perm_any _ h
      rw [hkey]
    | tim t => rfl
  rw [hp]

end IrisTx

/-- C1: every successful `simpleSpend` satisfies the conservation equation
`sum(inputs.value) = gift + fee + changeAmount`, with `changeAmount = 0`
whenever `includeChange` is false; and with `includeChange` false, any
non-zero residual makes the call fail with `UnspentResidual`. -/
theorem c1_simpleSpend_conservation (b : IrisTx.TxBuilder)
    (inputs : List IrisTx.Note) (conds : List IrisTx.SpendCondition)
    (recipient : IrisTx.Digest) (gift : Nat) (feeO : Option Nat)
    (refund : IrisTx.Digest) (ic : Bool) :
    (∀ b', IrisTx.simpleSpend b inputs conds recipient gift feeO refund ic =
        .ok b' →
      ∃ utx, b'.state = .composed utx ∧
        IrisTx.sumValues inputs = gift + utx.fee + IrisTx.changeAmount utx ∧
        (ic = false → IrisTx.changeAmount utx = 0)) ∧
    (b.state = .draft → inputs ≠ [] → ic = false →
      gift + feeO.getD (IrisTx.feeFor b.settings inputs) ≤
        IrisTx.sumValues inputs →
      IrisTx.sumValues inputs ≠
        gift + feeO.getD (IrisTx.feeFor b.settings inputs) →
      IrisTx.simpleSpend b inputs conds recipient gift feeO refund ic =
        .error .unspentResidual) := by
  constructor
  · intro b' h
    rw [IrisTx.simpleSpend_ok_iff] at h
    obtain ⟨hst, hne, hle, hic0, rfl⟩ := h
    refine ⟨_, rfl, ?_, ?_⟩
    · cases hic : ic with
      | true =>
        cases hres : (IrisTx.sumValues inputs - gift -
            feeO.getD (IrisTx.feeFor b.settings inputs) == 0) with
        | true =>
          have h0 := eq_of_beq hres
          simp [IrisTx.changeAmount, hic, hres, IrisTx.Output.isChange]
          omega
        | false =>
          have h0 := beq_eq_false_iff_ne.mp hres
          simp [IrisTx.changeAmount, hic, hres, IrisTx.Output.isChange]
          omega
      | false =>
        have h0 := hic0 hic
        simp [IrisTx.changeAmount, hic, IrisTx.Output.isChange]
        omega
    · intro hicf
      have h0 := hic0 hicf
      simp [IrisTx.changeAmount, hicf, IrisTx.Output.isChange]
  · intro hst hne hicf hle hneq
    have he : inputs.isEmpty = false := List.isEmpty_eq_false.mpr hne
    have hnlt : ¬ (IrisTx.sumValues inputs <
        gift + feeO.getD (IrisTx.feeFor b.settings inputs)) := Nat.not_lt.mpr hle
    have hres : (IrisTx.sumValues inputs - gift -
        feeO.getD (IrisTx.feeFor b.settings inputs) == 0) = false := by
      rw [beq_eq_false_iff_ne]
      omega
    simp only [IrisTx.simpleSpend, hst, he, Bool.false_eq_true, if_false]
    rw [if_neg hnlt]
    simp [hicf, hres]

/-- Witness for C1 at the spec's worked scenario: one 1,000,000 input,
gift 600,000, fee override 50,000, change enabled: the resulting composed
transaction conserves value. -/
theorem c1_witness :
    ∃ utx, IrisTx.wComposedBuilder.state = .composed utx ∧
      IrisTx.sumValues [IrisTx.noteOf 1000000 IrisTx.wKey] =
        600000 + utx.fee + IrisTx.changeAmount utx ∧
      (true = false → IrisTx.changeAmount utx = 0) :=
  (c1_simpleSpend_conservation IrisTx.freshBuilder
      [IrisTx.noteOf 1000000 IrisTx.wKey] [] IrisTx.dA 600000 (some 50000)
      IrisTx.dB true).1 IrisTx.wComposedBuilder rfl

/-- C2: `simpleSpend` is deterministic — two successful calls with
identical arguments produce transactions with identical canonical byte
encodings — and the outputs are ordered with the recipient output first
and the synthesized change output (when present) last. -/
theorem c2_simpleSpend_deterministic (b : IrisTx.TxBuilder)
    (inputs : List IrisTx.Note) (conds : List IrisTx.SpendCondition)
    (recipient : IrisTx.Digest) (gift : Nat) (feeO : Option Nat)
    (refund : IrisTx.Digest) (ic : Bool) (b1 b2 : IrisTx.TxBuilder)
    (h1 : IrisTx.simpleSpend b inputs conds recipient gift feeO refund ic =
      .ok b1)
    (h2 : IrisTx.simpleSpend b inputs conds recipient gift feeO refund ic =
      .ok b2) :
    (∃ utx1 utx2, b1.state = .composed utx1 ∧ b2.state = .composed utx2 ∧
      IrisTx.encodeUnsignedTx utx1 = IrisTx.encodeUnsignedTx utx2) ∧
    (∀ utx, b1.state = .composed utx →
      ∃ rest, utx.outputs = ⟨recipient, gift, false⟩ :: rest ∧
        (rest = [] ∨ ∃ r, rest = [⟨refund, r, true⟩])) := by
  rw [h1] at h2
  injection h2 with hb
  subst hb
  rw [IrisTx.simpleSpend_ok_iff] at h1
  obtain ⟨hst, hne, hle, hic0, rfl⟩ := h1
  constructor
  · exact ⟨_, _, rfl, rfl, rfl⟩
  · intro utx hutx
    simp only [IrisTx.BuilderState.composed.injEq] at hutx
    subst hutx
    refine ⟨_, rfl, ?_⟩
    cases hcond : (ic && !(IrisTx.sumValues inputs - gift -
        feeO.getD (IrisTx.feeFor b.settings inputs) == 0)) with
    | true =>
      exact Or.inr ⟨IrisTx.sumValues inputs - gift -
        feeO.getD (IrisTx.feeFor b.settings inputs), by simp [hcond]⟩
    | false => exact Or.inl (by simp [hcond])

/-- Witness for C2 at the spec's worked scenario. -/
theorem c2_witness :
    (∃ utx1 utx2, IrisTx.wComposedBuilder.state = .composed utx1 ∧
      IrisTx.wComposedBuilder.state = .composed utx2 ∧
      IrisTx.encodeUnsignedTx utx1 = IrisTx.encodeUnsignedTx utx2) ∧
    (∀ utx, IrisTx.wComposedBuilder.state = .composed utx →
      ∃ rest, utx.outputs = ⟨IrisTx.dA, 600000, false⟩ :: rest ∧
        (rest = [] ∨ ∃ r, rest = [⟨IrisTx.dB, r, true⟩])) :=
  c2_simpleSpend_deterministic IrisTx.freshBuilder
    [IrisTx.noteOf 1000000 IrisTx.wKey] [] IrisTx.dA 600000 (some 50000)
    IrisTx.dB true IrisTx.wComposedBuilder IrisTx.wComposedBuilder rfl rfl

/-- C3: the builder lifecycle is one-directional along
Draft → Composed → Signed → Built: a successful `simpleSpend` moves
Draft to Composed, a successful `sign` moves Composed or Signed to Signed,
a successful `build` moves Signed to Built; no successful operation ever
decreases the stage; `sign` fails with `WrongBuilderState` in the Draft
and Built states; and in the Built state every operation fails with
`WrongBuilderState` (the builder is spent). A failed operation returns
only the error, leaving the builder value untouched. -/
theorem c3_builder_lifecycle (b b' : IrisTx.TxBuilder)
    (inputs : List IrisTx.Note) (conds : List IrisTx.SpendCondition)
    (recipient : IrisTx.Digest) (gift : Nat) (feeO : Option Nat)
    (refund : IrisTx.Digest) (ic : Bool) (k : IrisTx.PrivateKey) :
    (IrisTx.simpleSpend b inputs conds recipient gift feeO refund ic =
        .ok b' → b.state.tag = .draft ∧ b'.state.tag = .composed) ∧
    (IrisTx.sign b k = .ok b' →
      (b.state.tag = .composed ∨ b.state.tag = .signed) ∧
      b'.state.tag = .signed) ∧
    (IrisTx.build b = .ok b' →
      b.state.tag = .signed ∧ b'.state.tag = .built) ∧
    (IrisTx.simpleSpend b inputs conds recipient gift feeO refund ic =
        .ok b' → b.state.tag.idx < b'.state.tag.idx) ∧
    (IrisTx.sign b k = .ok b' → b.state.tag.idx ≤ b'.state.tag.idx) ∧
    (IrisTx.build b = .ok b' → b.state.tag.idx < b'.state.tag.idx) ∧
    ((b.state.tag = .draft ∨ b.state.tag = .built) →
      IrisTx.sign b k = .error .wrongBuilderState) ∧
    (b.state.tag = .built →
      IrisTx.simpleSpend b inputs conds recipient gift feeO refund ic =
          .error .wrongBuilderState ∧
      IrisTx.sign b k = .error .wrongBuilderState ∧
      IrisTx.build b = .error .wrongBuilderState) := by
  have hspend : IrisTx.simpleSpend b inputs conds recipient gift feeO refund
      ic = .ok b' → b.state.tag = .draft ∧ b'.state.tag = .composed := by
    intro h
    rw [IrisTx.simpleSpend_ok_iff] at h
    obtain ⟨hst, _, _, _, rfl⟩ := h
    rw [hst]
    exact ⟨rfl, rfl⟩
  obtain ⟨bs, bst⟩ := b
  cases bst with
  | draft =>
    refine ⟨hspend, ?_, ?_, ?_, ?_, ?_, ?_, ?_⟩
    · intro h; cases h
    · intro h; cases h
    · intro h
      obtain ⟨h1, h2⟩ := hspend h
      simp only [IrisTx.BuilderState.tag] at h2 ⊢
      rw [h2]
      simp only [IrisTx.StateTag.idx]
      omega
    · intro h; cases h
    · intro h; cases h
    · intro _; rfl
    · intro h
      simp [IrisTx.BuilderState.tag] at h
  | composed utx =>
    refine ⟨hspend, ?_, ?_, ?_, ?_, ?_, ?_, ?_⟩
    · intro h
      injection h with h2
      subst h2
      exact ⟨Or.inl rfl, rfl⟩
    · intro h; cases h
    · intro h; cases h
    · intro h
      injection h with h2
      subst h2
      simp only [IrisTx.BuilderState.tag, IrisTx.StateTag.idx]
      omega
    · intro h; cases h
    · rintro (h | h) <;> simp [IrisTx.BuilderState.tag] at h
    · intro h
      simp [IrisTx.BuilderState.tag] at h
  | signed utx sigs =>
    have hbuild : IrisTx.build ⟨bs, .signed utx sigs⟩ = .ok b' →
        b' = ⟨bs, .built utx sigs (IrisTx.txIdOf utx)⟩ := by
      intro h
      simp only [IrisTx.build] at h
      split at h
      · injection h with h2
        exact h2.symm
      · cases h
    refine ⟨hspend, ?_, ?_, ?_, ?_, ?_, ?_, ?_⟩
    · intro h
      injection h with h2
      subst h2
      exact ⟨Or.inr rfl, rfl⟩
    · intro h
      rw [hbuild h]
      exact ⟨rfl, rfl⟩
    · intro h; cases h
    · intro h
      injection h with h2
      subst h2
      simp only [IrisTx.BuilderState.tag, IrisTx.StateTag.idx]
      omega
    · intro h
      rw [hbuild h]
      simp only [IrisTx.BuilderState.tag, IrisTx.StateTag.idx]
      omega
    · rintro (h | h) <;> simp [IrisTx.BuilderState.tag] at h
    · intro h
      simp [IrisTx.BuilderState.tag] at h
  | built utx sigs txid =>
    refine ⟨hspend, ?_, ?_, ?_, ?_, ?_, ?_, ?_⟩
    · intro h; cases h
    · intro h; cases h
    · intro h; cases h
    · intro h; cases h
    · intro h; cases h
    · intro _; rfl
    · intro _
      exact ⟨rfl, rfl, rfl⟩

/-- Witness for C3 at concrete builders: `sign` fails on a fresh (Draft)
builder, and every operation fails on a Built builder. -/
theorem c3_witness :
    IrisTx.sign IrisTx.freshBuilder IrisTx.wKey =
      .error .wrongBuilderState ∧
    (IrisTx.simpleSpend IrisTx.wBuiltBuilder [] [] IrisTx.dA 0 none
        IrisTx.dB true = .error .wrongBuilderState ∧
      IrisTx.sign IrisTx.wBuiltBuilder IrisTx.wKey =
        .error .wrongBuilderState ∧
      IrisTx.build IrisTx.wBuiltBuilder = .error .wrongBuilderState) :=
  ⟨(c3_builder_lifecycle IrisTx.freshBuilder IrisTx.freshBuilder [] []
      IrisTx.dA 0 none IrisTx.dB true IrisTx.wKey).2.2.2.2.2.2.1
      (Or.inl rfl),
   (c3_builder_lifecycle IrisTx.wBuiltBuilder IrisTx.wBuiltBuilder [] []
      IrisTx.dA 0 none IrisTx.dB true IrisTx.wKey).2.2.2.2.2.2.2 rfl⟩

/-- C4: on a builder in the Signed state, `build` fails with
`IncompleteSignatures` if and only if some input's spend condition has a
`Pkh` primitive the accumulated signature set cannot satisfy; otherwise it
succeeds and moves the builder to Built. -/
theorem c4_build_incompleteSignatures (b : IrisTx.TxBuilder)
    (utx : IrisTx.UnsignedTx) (sigs : List IrisTx.Signature)
    (h : b.state = .signed utx sigs) :
    (IrisTx.build b = .error .incompleteSignatures ↔
      ∃ n ∈ utx.inputs, IrisTx.condPkhSatisfied sigs n.lock = false) ∧
    ((∀ n ∈ utx.inputs, IrisTx.condPkhSatisfied sigs n.lock = true) →
      IrisTx.build b = .ok ⟨b.settings, .built utx sigs (IrisTx.txIdOf utx)⟩) := by
  cases hall : utx.inputs.all (fun n => IrisTx.condPkhSatisfied sigs n.lock) with
  | true =>
    have hok : IrisTx.build b = .ok ⟨b.settings, .built utx sigs
        (IrisTx.txIdOf utx)⟩ := by
      simp only [IrisTx.build, h, hall, if_true]
    refine ⟨?_, fun _ => hok⟩
    rw [hok]
    constructor
    · intro hcontra; cases hcontra
    · rintro ⟨n, hn, hf⟩
      have := List.all_eq_true.mp hall n hn
      rw [this] at hf
      cases hf
  | false =>
    have herr : IrisTx.build b = .error .incompleteSignatures := by
      simp only [IrisTx.build, h, hall, Bool.false_eq_true, if_false]
    refine ⟨?_, ?_⟩
    · rw [herr]
      constructor
      · intro _
        obtain ⟨n, hn, hf⟩ := List.all_eq_false.mp hall
        exact ⟨n, hn, by simpa using hf⟩
      · intro _; rfl
    · intro hforall
      rw [List.all_eq_true.mpr hforall] at hall
      cases hall

/-- Witness for C4 at the spec's scenario: a single-key `Pkh` condition
signed by the matching key builds successfully, and signed only by an
unrelated key fails with `IncompleteSignatures`. -/
theorem c4_witness :
    IrisTx.build IrisTx.wSignedOk = .ok ⟨IrisTx.wSignedOk.settings,
      .built IrisTx.wComposedUtx [IrisTx.signPayload IrisTx.wKey
        IrisTx.wComposedUtx] (IrisTx.txIdOf IrisTx.wComposedUtx)⟩ ∧
    IrisTx.build IrisTx.wSignedBad = .error .incompleteSignatures :=
  ⟨(c4_build_incompleteSignatures IrisTx.wSignedOk IrisTx.wComposedUtx
      [IrisTx.signPayload IrisTx.wKey IrisTx.wComposedUtx] rfl).2
      (by decide),
   (c4_build_incompleteSignatures IrisTx.wSignedBad IrisTx.wComposedUtx
      [IrisTx.signPayload IrisTx.wKey2 IrisTx.wComposedUtx] rfl).1.mpr
      (by decide)⟩

/-- C5: `simpleSpend` on a Draft builder with non-empty inputs whose total
value is below `gift + fee` fails with `InsufficientFunds` (returning only
the error: no partial state is created and the builder value is
unchanged). -/
theorem c5_insufficientFunds (b : IrisTx.TxBuilder)
    (inputs : List IrisTx.Note) (conds : List IrisTx.SpendCondition)
    (recipient : IrisTx.Digest) (gift : Nat) (feeO : Option Nat)
    (refund : IrisTx.Digest) (ic : Bool)
    (hst : b.state = .draft) (hne : inputs ≠ [])
    (hlt : IrisTx.sumValues inputs <
      gift + feeO.getD (IrisTx.feeFor b.settings inputs)) :
    IrisTx.simpleSpend b inputs conds recipient gift feeO refund ic =
      .error .insufficientFunds := by
  have he : inputs.isEmpty = false := List.isEmpty_eq_false.mpr hne
  simp only [IrisTx.simpleSpend, hst, he, Bool.false_eq_true, if_false]
  rw [if_pos hlt]

/-- Witness for C5 at the spec's scenario: one input of value 100 against a
gift of 600,000 is rejected with `InsufficientFunds`. -/
theorem c5_witness :
    IrisTx.simpleSpend IrisTx.freshBuilder [IrisTx.noteOf 100 IrisTx.wKey]
      [] IrisTx.dA 600000 none IrisTx.dB true =
      .error .insufficientFunds :=
  c5_insufficientFunds IrisTx.freshBuilder [IrisTx.noteOf 100 IrisTx.wKey]
    [] IrisTx.dA 600000 none IrisTx.dB true rfl (by decide) (by decide)

/-- C6: `sign` is commutative in its contribution set: on a Composed or
Signed builder, signing with `k1` then `k2` and with `k2` then `k1` both
succeed and yield signature lists that are permutations of each other over
the same unsigned transaction, so exactly the same spend conditions are
satisfiable; moreover `sign` accepts every key (a signature matching no
primitive is accumulated but inert, never rejected). -/
theorem c6_sign_commutative (b : IrisTx.TxBuilder)
    (k1 k2 : IrisTx.PrivateKey)
    (h : b.state.tag = .composed ∨ b.state.tag = .signed) :
    (∃ b12 b21 utx sigs12 sigs21,
      (IrisTx.sign b k1).bind (fun x => IrisTx.sign x k2) = .ok b12 ∧
      (IrisTx.sign b k2).bind (fun x => IrisTx.sign x k1) = .ok b21 ∧
      b12.state = .signed utx sigs12 ∧ b21.state = .signed utx sigs21 ∧
      sigs12.Perm sigs21 ∧
      ∀ c : IrisTx.SpendCondition,
        IrisTx.condPkhSatisfied sigs12 c = IrisTx.condPkhSatisfied sigs21 c) ∧
    (∀ k : IrisTx.PrivateKey, ∃ bk, IrisTx.sign b k = .ok bk) := by
  obtain ⟨bs, bst⟩ := b
  cases bst with
  | draft => simp [IrisTx.BuilderState.tag] at h
  | built utx sigs txid => simp [IrisTx.BuilderState.tag] at h
  | composed utx =>
    have hperm : [IrisTx.signPayload k1 utx, IrisTx.signPayload k2 utx].Perm
        [IrisTx.signPayload k2 utx, IrisTx.signPayload k1 utx] :=
      List.Perm.swap _ _ _
    refine ⟨⟨_, _, utx, _, _, rfl, rfl, rfl, rfl, hperm,
      fun c => IrisTx.condPkhSatisfied_perm _ _ hperm c⟩,
      fun k => ⟨_, rfl⟩⟩
  | signed utx sigs =>
    have he1 : (sigs ++ [IrisTx.signPayload k1 utx]) ++
        [IrisTx.signPayload k2 utx] =
        sigs ++ [IrisTx.signPayload k1 utx, IrisTx.signPayload k2 utx] := by
      simp
    have he2 : (sigs ++ [IrisTx.signPayload k2 utx]) ++
        [IrisTx.signPayload k1 utx] =
        sigs ++ [IrisTx.signPayload k2 utx, IrisTx.signPayload k1 utx] := by
      simp
    have hperm : ((sigs ++ [IrisTx.signPayload k1 utx]) ++
        [IrisTx.signPayload k2 utx]).Perm
        ((sigs ++ [IrisTx.signPayload k2 utx]) ++
        [IrisTx.signPayload k1 utx]) := by
      rw [he1, he2]
      exact List.Perm.append_left sigs (List.Perm.swap _ _ _)
    refine ⟨⟨_, _, utx, _, _, rfl, rfl, rfl, rfl, hperm,
      fun c => IrisTx.condPkhSatisfied_perm _ _ hperm c⟩,
      fun k => ⟨_, rfl⟩⟩

/-- Witness for C6 on a concrete Composed builder with two concrete
keys. -/
theorem c6_witness :
    (∃ b12 b21 utx sigs12 sigs21,
      (IrisTx.sign IrisTx.wComposedBuilder ⟨[1]⟩).bind
        (fun x => IrisTx.sign x ⟨[2]⟩) = .ok b12 ∧
      (IrisTx.sign IrisTx.wComposedBuilder ⟨[2]⟩).bind
        (fun x => IrisTx.sign x ⟨[1]⟩) = .ok b21 ∧
      b12.state = .signed utx sigs12 ∧ b21.state = .signed utx sigs21 ∧
      sigs12.Perm sigs21 ∧
      ∀ c : IrisTx.SpendCondition,
        IrisTx.condPkhSatisfied sigs12 c = IrisTx.condPkhSatisfied sigs21 c) ∧
    (∀ k : IrisTx.PrivateKey,
      ∃ bk, IrisTx.sign IrisTx.wComposedBuilder k = .ok bk) :=
  c6_sign_commutative IrisTx.wComposedBuilder ⟨[1]⟩ ⟨[2]⟩ (Or.inl rfl)

/-- C7: two named settings presets exist as pure, addressable constants —
the general default and the Bythos network default — each a fixed
immutable value: every invocation of a preset accessor returns the same
settings. -/
theorem c7_settings_presets :
    IrisTx.txEngineSettingsV1Default () =
      { version := 1, baseFee := 1000, feePerInput := 100 } ∧
    IrisTx.txEngineSettingsV1BythosDefault () =
      { version := 1, baseFee := 2000, feePerInput := 100 } ∧
    ∀ u v : Unit,
      IrisTx.txEngineSettingsV1Default u = IrisTx.txEngineSettingsV1Default v ∧
      IrisTx.txEngineSettingsV1BythosDefault u =
        IrisTx.txEngineSettingsV1BythosDefault v :=
  ⟨rfl, rfl, fun _ _ => ⟨rfl, rfl⟩⟩
